import Mathlib

/-!
Verification of the pygfx scene-graph transform core.

Source files embedded here:
- pygfx/objects/_base.py   (class WorldObject: add, remove, update_matrix,
  update_matrix_world)
- pygfx/materials/_points.py  (class PointsMaterial and PointsSpriteMaterial:
  validated property setters, pick-info decoding)

External collaborators (the linalg library, the Texture resource type, the
enum declarations, the Color type and the bit-unpacking helper) are not part
of the two source files; where a claim depends on one of those, the
definition carries a doc comment starting with the words Modelled from the
spec, and is written from the natural-language specification.
-/

/-! ## Python value model for the validated property setters

The setters of PointsMaterial receive arbitrary Python values.  For the
claims about enum-valued properties we only need to distinguish None,
strings and integers; truthiness of those values follows the Python rules
(None, the empty string and 0 are falsy). -/

inductive PyVal where
  | none
  | str (s : String)
  | int (n : Int)
deriving DecidableEq

/-- Python truthiness for the modelled values: None, the empty string and 0
are falsy, everything else is truthy. -/
def isFalsy : PyVal → Bool
  | PyVal.none => true
  | PyVal.str s => s == ""
  | PyVal.int n => n == 0

/-- The Python expression value or fallback: the fallback when value is
falsy, the value itself otherwise. -/
def pyOr (value fallback : PyVal) : PyVal :=
  if isFalsy value then fallback else value

/-- Modelled from the spec: the ColorMode enum collaborator
(pygfx.utils.enums.ColorMode is not among the source files).  Spec section 6
declares color_mode as ranging over auto, uniform, vertex, face. -/
def ColorMode : List String := ["auto", "uniform", "vertex", "face"]

/-- Modelled from the spec: the CoordSpace enum collaborator; spec section 6
declares size_space as ranging over screen, world, model. -/
def CoordSpace : List String := ["screen", "world", "model"]

/-- Modelled from the spec: the SizeMode enum collaborator; spec section 6
declares size_mode as ranging over uniform, vertex. -/
def SizeMode : List String := ["uniform", "vertex"]

/-- The membership test value in Enum performed by the setters: a Python
value is a member exactly when it is one of the member strings. -/
def isEnumMember (v : PyVal) (dom : List String) : Bool :=
  match v with
  | PyVal.str s => decide (s ∈ dom)
  | _ => false

/-- The data carried by the invalid-enum-value error (the ValueError raised
by the setters names the offending value and the allowed set). -/
structure EnumError where
  value : PyVal
  allowed : List String
deriving DecidableEq

/-- PointsMaterial.color_mode setter (materials/_points.py lines 122-129).
The first component of the result is the stored value after the call
(store is the previously stored value), the second the raised error, if
any.  A raise leaves the store untouched. -/
def color_mode_set (store value : PyVal) : PyVal × Option EnumError :=
  let value := pyOr value (PyVal.str "auto")
  if isEnumMember value ColorMode then (value, Option.none)
  else (store, Option.some ⟨value, ColorMode⟩)

/-- PointsMaterial.size_space setter (materials/_points.py lines 159-166). -/
def size_space_set (store value : PyVal) : PyVal × Option EnumError :=
  let value := pyOr value (PyVal.str "screen")
  if isEnumMember value CoordSpace then (value, Option.none)
  else (store, Option.some ⟨value, CoordSpace⟩)

/-- PointsMaterial.size_mode setter (materials/_points.py lines 176-183). -/
def size_mode_set (store value : PyVal) : PyVal × Option EnumError :=
  let value := pyOr value (PyVal.str "uniform")
  if isEnumMember value SizeMode then (value, Option.none)
  else (store, Option.some ⟨value, SizeMode⟩)

/-! ## The color setter and the transparency flag -/

/-- Modelled from the spec: the Color collaborator (pygfx.utils.Color is not
among the source files) is an RGBA value; the alpha channel is the field a.
Components are modelled as rationals; the values compared by the setter are
exact. -/
structure Color where
  r : ℚ
  g : ℚ
  b : ℚ
  a : ℚ
deriving DecidableEq

/-- The part of the PointsMaterial state touched by the color setter: the
color field of the packed uniform buffer, the pending-flush ranges of that
buffer, and the cached color_is_transparent flag of the property store. -/
structure PointsMaterialState where
  color : Color
  pending : List (Nat × Nat)
  color_is_transparent : Bool
deriving DecidableEq

/-- PointsMaterial.color setter (materials/_points.py lines 79-84): write the
color into the uniform buffer, mark the covering range pending, and derive
the transparency flag from the alpha channel, all in one call. -/
def color_set (st : PointsMaterialState) (value : Color) : PointsMaterialState :=
  { st with
      color := value,
      pending := st.pending ++ [(0, 1)],
      color_is_transparent := decide (value.a < 1) }

/-! ## Texture-valued properties (map, sprite) -/

/-- The type-mismatch condition raised by the texture setters (the failed
assert in the source). -/
inductive TypeMismatch where
  | assertionFailed
deriving DecidableEq

/-- The values a texture-valued setter may receive: the no-texture sentinel
None, a Texture handle (modelled from the spec as an opaque identifier,
pygfx.resources.Texture is not among the source files), or any other
Python value. -/
inductive TexValue where
  | none
  | texture (id : Nat)
  | other (v : PyVal)
deriving DecidableEq

/-- The test map is None or isinstance(map, Texture) from the setters. -/
def isNoneOrTexture : TexValue → Bool
  | TexValue.none => true
  | TexValue.texture _ => true
  | TexValue.other _ => false

/-- PointsMaterial.map setter (materials/_points.py lines 193-196): assert
that the value is None or a Texture, then store it.  The first component is
the stored value after the call, the second the raised error, if any. -/
def map_set (store value : TexValue) : TexValue × Option TypeMismatch :=
  if isNoneOrTexture value then (value, Option.none)
  else (store, Option.some TypeMismatch.assertionFailed)

/-- PointsSpriteMaterial.sprite setter (materials/_points.py lines 242-245);
same shape as the map setter. -/
def sprite_set (store value : TexValue) : TexValue × Option TypeMismatch :=
  if isNoneOrTexture value then (value, Option.none)
  else (store, Option.some TypeMismatch.assertionFailed)

/-! ## Pick-value decoding -/

/-- Modelled from the spec: the bit-unpacking collaborator unpack_bitfield
(pygfx.utils is not among the source files).  Spec section 4.2: decode
fixed-width sub-fields in a fixed bit layout, the fields listed first
occupying the most significant bits.  Each field value is the slice of the
packed integer at its offset. -/
def unpack_bitfield (packed : Nat) : List (String × Nat) → List (String × Nat)
  | [] => []
  | (key, bits) :: rest =>
      (key, packed / 2 ^ ((rest.map Prod.snd).sum) % 2 ^ bits) ::
        unpack_bitfield packed rest

/-- Modelled from the spec: the matching encoder used by the render path
(spec section 4.2: the decoding must exactly mirror the encoding; the bit
widths are a fixed contract between the two).  Fields are listed as
(value, bits) pairs, first field in the most significant bits. -/
def pack_bitfield : List (Nat × Nat) → Nat
  | [] => 0
  | (value, bits) :: rest =>
      value % 2 ^ bits * 2 ^ ((rest.map Prod.snd).sum) + pack_bitfield rest

/-- A field of the dict returned by the pick-info decoder: either a bare
integer or a coordinate pair.  The float arithmetic of the source
(values minus 256.0) is exact at these magnitudes and is modelled over the
integers. -/
inductive PickField where
  | nat (n : Nat)
  | coord (c : Int × Int)
deriving DecidableEq

/-- First value stored under the given key, 0 when absent. -/
def lookupNat (l : List (String × Nat)) (key : String) : Nat :=
  (l.lookup key).getD 0

/-- PointsMaterial._wgpu_get_pick_info (materials/_points.py lines 66-72):
unpack the pick value with the fixed widths, then build the result dict
with the vertex index and the bias-corrected point coordinate. -/
def _wgpu_get_pick_info (pick_value : Nat) : List (String × PickField) :=
  let values := unpack_bitfield pick_value
    [("wobject_id", 20), ("index", 26), ("x", 9), ("y", 9)]
  [("vertex_index", PickField.nat (lookupNat values "index")),
   ("point_coord", PickField.coord
      ((lookupNat values "x" : Int) - 256, (lookupNat values "y" : Int) - 256))]

/-! ## The scene graph: parent and children references

For the hierarchy-mutation operations (add, remove) object identity
matters, so the state is a table of per-object fields indexed by object
identity; exactly the WorldObject fields those operations touch (parent,
_children, matrix_world_dirty) are represented. -/

structure Graph where
  parent : Nat → Option Nat
  children : Nat → List Nat
  matrix_world_dirty : Nat → Bool

/-- WorldObject.remove (objects/_base.py lines 51-54): when obj is among the
children, clear its parent and take it out of the list (Python list.remove
drops the first occurrence); silently do nothing otherwise. -/
def Graph.remove (g : Graph) (self obj : Nat) : Graph :=
  if obj ∈ g.children self then
    { g with
        parent := Function.update g.parent obj Option.none,
        children := Function.update g.children self ((g.children self).erase obj) }
  else g

/-- WorldObject.add (objects/_base.py lines 40-49): orphan the object if it
has a parent, then attach it (set its parent, append it to the children)
and flag its world matrix dirty. -/
def Graph.add (g : Graph) (self obj : Nat) : Graph :=
  let g1 := match g.parent obj with
    | Option.some p => g.remove p obj
    | Option.none => g
  { g1 with
      parent := Function.update g1.parent obj (Option.some self),
      children := Function.update g1.children self (g1.children self ++ [obj]),
      matrix_world_dirty := Function.update g1.matrix_world_dirty obj true }

/-- Well-formedness of the scene graph as maintained by the constructor and
by add and remove: the parent reference and the children lists agree, and
no child occurs twice in one list. -/
def Graph.WF (g : Graph) : Prop :=
  (∀ c p : Nat, c ∈ g.children p ↔ g.parent c = Option.some p) ∧
    ∀ p : Nat, (g.children p).Nodup

/-! ## The transform hierarchy

For the matrix-update claims the hierarchy is a rose tree: each node
carries the WorldObject fields the update algorithm touches (position,
rotation, scale, matrix, matrix_world, matrix_world_dirty, children); the
fields the algorithm never reads or writes (up, visible, render_order) are
omitted.  The linalg collaborator is abstracted: V and Q stand for the
Vector3 and Quaternion types, M for Matrix4, assumed to form a monoid
under Matrix4.multiply_matrices (matrix multiplication is associative with
identity), and compose for Matrix4.compose over a position, rotation and
scale. -/

inductive WTree (V Q M : Type) : Type where
  | mk (position : V) (rotation : Q) (scale : V) (matrix : M) (matrix_world : M)
      (matrix_world_dirty : Bool) (children : List (WTree V Q M))

variable {V Q M : Type}

def WTree.position : WTree V Q M → V
  | WTree.mk p _ _ _ _ _ _ => p

def WTree.rotation : WTree V Q M → Q
  | WTree.mk _ r _ _ _ _ _ => r

def WTree.scale : WTree V Q M → V
  | WTree.mk _ _ s _ _ _ _ => s

def WTree.matrix_world : WTree V Q M → M
  | WTree.mk _ _ _ _ w _ _ => w

def WTree.matrix_world_dirty : WTree V Q M → Bool
  | WTree.mk _ _ _ _ _ d _ => d

def WTree.children : WTree V Q M → List (WTree V Q M)
  | WTree.mk _ _ _ _ _ _ cs => cs

/-- The statement child.matrix_world_dirty = True of objects/_base.py
line 82 (and line 48). -/
def WTree.markDirty : WTree V Q M → WTree V Q M
  | WTree.mk p r s m w _ cs => WTree.mk p r s m w true cs

/-- Lines 74-79 of objects/_base.py: the world matrix is a copy of the
local matrix at a root, and parent.matrix_world times the local matrix
otherwise. -/
def applyParent [Monoid M] : Option M → M → M
  | Option.none, m => m
  | Option.some pw, m => pw * m

/-- WorldObject.update_matrix_world (objects/_base.py lines 65-85)
restricted to a call with update_parents=False, as in the recursive calls
on children (line 85, all defaults) and in any call on a root.
parent_world is self.parent.matrix_world as the node would read it at
lines 74-79 (None at a root).  Line 72 first runs update_matrix
(lines 61-63): the local matrix is recomputed from position, rotation and
scale, and matrix_world_dirty is set. -/
def update_matrix_world_at (compose : V → Q → V → M) [Monoid M]
    (parent_world : Option M) (force update_children : Bool) :
    WTree V Q M → WTree V Q M
  | WTree.mk position rotation scale _matrix matrix_world _dirty children =>
      let matrix := compose position rotation scale
      let matrix_world_dirty := true
      if matrix_world_dirty || force then
        let new_world := applyParent parent_world matrix
        WTree.mk position rotation scale matrix new_world false
          (if update_children then
            (children.map WTree.markDirty).attach.map fun c =>
              update_matrix_world_at compose (Option.some new_world) false true c.1
          else children.map WTree.markDirty)
      else
        WTree.mk position rotation scale matrix matrix_world matrix_world_dirty
          (if update_children then
            children.attach.map fun c =>
              update_matrix_world_at compose (Option.some matrix_world) false true c.1
          else children)
termination_by t => sizeOf t
decreasing_by
  · obtain ⟨b, hb, hcb⟩ := List.mem_map.1 c.2
    have hsz : sizeOf (WTree.markDirty b) = sizeOf b := by
      cases b with
      | mk p r s m w d cs => cases d <;> simp [WTree.markDirty]
    have hlt := List.sizeOf_lt_of_mem hb
    simp only [← hcb, hsz]
    simp only [WTree.mk.sizeOf_spec]
    omega
  · have hlt := List.sizeOf_lt_of_mem c.2
    simp only [WTree.mk.sizeOf_spec]
    omega

/-- The node reached from t by the given child-index path (root = empty
path). -/
def WTree.getAt : WTree V Q M → List Nat → Option (WTree V Q M)
  | t, [] => Option.some t
  | WTree.mk _ _ _ _ _ _ children, i :: rest =>
      match children[i]? with
      | Option.some c => WTree.getAt c rest
      | Option.none => Option.none

/-- Replace the subtree at the given path by f of it (identity when the
path leads nowhere). -/
def WTree.modifyAt (f : WTree V Q M → WTree V Q M) :
    WTree V Q M → List Nat → WTree V Q M
  | t, [] => f t
  | WTree.mk p r s m w d children, i :: rest =>
      match children[i]? with
      | Option.some c =>
          WTree.mk p r s m w d (children.set i (WTree.modifyAt f c rest))
      | Option.none => WTree.mk p r s m w d children

/-- WorldObject.update_matrix_world (objects/_base.py lines 65-85) with
its full signature, on the node of the scene tree t reached by path.
Lines 68-71 first recurse upward (with update_children=False,
update_parents=True) when update_parents is set and the node has a parent
(path nonempty); then lines 72-85 run at the node, reading
self.parent.matrix_world from the tree produced by the upward pass. -/
def update_matrix_world (compose : V → Q → V → M) [Monoid M] (t : WTree V Q M)
    (path : List Nat) (force update_children update_parents : Bool) :
    WTree V Q M :=
  let t1 := if h : update_parents = true ∧ path ≠ [] then
      update_matrix_world compose t path.dropLast force false true
    else t
  let parent_world := if path = [] then Option.none
    else (WTree.getAt t1 path.dropLast).map WTree.matrix_world
  WTree.modifyAt (update_matrix_world_at compose parent_world force update_children)
    t1 path
termination_by path.length
decreasing_by
  have hlen : 0 < path.length := List.length_pos.mpr h.2
  simp only [List.length_dropLast]
  omega

/-- The product of 1 (at a root) or the parent world matrix: what
lines 74-79 multiply the local matrix by. -/
def pwProd [Monoid M] : Option M → M
  | Option.none => 1
  | Option.some pw => pw

/-- The property of claim C1, stated as the claim words it: at every node
of the tree, matrix_world equals the product of the local matrices of its
ancestors (root-to-node order, accumulated in ancestors) times the node
local matrix, where the local matrix of a node is compose of its
position, rotation and scale. -/
inductive WorldsMatch [Monoid M] (compose : V → Q → V → M) :
    List M → WTree V Q M → Prop where
  | mk : ∀ (ancestors : List M) (p : V) (r : Q) (s : V) (m w : M) (d : Bool)
      (children : List (WTree V Q M)),
      w = ancestors.prod * compose p r s →
      (∀ c ∈ children, WorldsMatch compose (ancestors ++ [compose p r s]) c) →
      WorldsMatch compose ancestors (WTree.mk p r s m w d children)

/-! # Theorems -/

/-! ## Helper lemmas for the graph operations -/

theorem graph_add_parent (g : Graph) (self obj c : Nat) :
    (g.add self obj).parent c =
      if c = obj then Option.some self
      else match g.parent obj with
        | Option.some p => (g.remove p obj).parent c
        | Option.none => g.parent c := by
  rcases hp : g.parent obj with _ | p <;>
    simp only [Graph.add, hp, Function.update_apply]

theorem graph_add_children (g : Graph) (self obj x : Nat) :
    (g.add self obj).children x =
      (match g.parent obj with
        | Option.some p => g.remove p obj
        | Option.none => g).children x ++ (if x = self then [obj] else []) := by
  rcases hp : g.parent obj with _ | p <;>
    simp only [Graph.add, hp, Function.update_apply] <;>
    by_cases hx : x = self <;> simp [hx]

/-- Membership in a children list after add, on a well-formed graph: the new
child is exactly in the list of the new parent, everything else is as
before. -/
theorem graph_mem_add_children (g : Graph) (self obj : Nat) (hwf : g.WF)
    (x c : Nat) :
    c ∈ (g.add self obj).children x ↔
      (c = obj ∧ x = self) ∨ (c ≠ obj ∧ c ∈ g.children x) := by
  obtain ⟨hiff, hnd⟩ := hwf
  rw [graph_add_children]
  rcases hp : g.parent obj with _ | p
  · have hout : ∀ y, obj ∉ g.children y := by
      intro y hy
      rw [hiff] at hy
      rw [hp] at hy
      exact Option.noConfusion hy
    by_cases hc : c = obj <;> by_cases hx : x = self <;>
      simp [hc, hx, hout]
  · have hin : obj ∈ g.children p := (hiff obj p).mpr hp
    simp only [Graph.remove, if_pos hin, Function.update_apply]
    by_cases hc : c = obj
    · subst hc
      by_cases hx : x = self
      · subst hx
        by_cases hxp : x = p <;> simp [hxp, (hnd p).not_mem_erase]
      · by_cases hxp : x = p
        · subst hxp
          simp [hx, (hnd x).not_mem_erase]
        · have : c ∉ g.children x := by
            intro hmem
            rw [hiff] at hmem
            rw [hp] at hmem
            exact hxp (Option.some.inj hmem).symm
          simp [hx, hxp, this]
    · by_cases hx : x = self
      · subst hx
        by_cases hxp : x = p <;>
          simp [hc, hxp, List.mem_erase_of_ne hc]
      · simp only [if_neg hx, List.append_nil]
        by_cases hxp : x = p <;>
          simp [hc, hxp, List.mem_erase_of_ne hc]

theorem graph_add_children_nodup (g : Graph) (self obj : Nat) (hwf : g.WF)
    (x : Nat) : ((g.add self obj).children x).Nodup := by
  obtain ⟨hiff, hnd⟩ := hwf
  rw [graph_add_children]
  have horphan : ∀ y, ((match g.parent obj with
      | Option.some p => g.remove p obj
      | Option.none => g).children y).Nodup ∧
      obj ∉ (match g.parent obj with
      | Option.some p => g.remove p obj
      | Option.none => g).children y := by
    intro y
    rcases hp : g.parent obj with _ | p
    · refine ⟨hnd y, fun hy => ?_⟩
      rw [hiff] at hy
      rw [hp] at hy
      exact Option.noConfusion hy
    · have hin : obj ∈ g.children p := (hiff obj p).mpr hp
      simp only [Graph.remove, if_pos hin, Function.update_apply]
      by_cases hyp : y = p
      · subst hyp
        simp only [if_pos rfl]
        exact ⟨(hnd y).erase obj, (hnd y).not_mem_erase⟩
      · simp only [if_neg hyp]
        refine ⟨hnd y, fun hy => ?_⟩
        rw [hiff] at hy
        rw [hp] at hy
        exact hyp (Option.some.inj hy).symm
  by_cases hx : x = self
  · simp only [if_pos hx]
    exact ((horphan x).1.append (List.nodup_singleton obj))
      (by simpa using (horphan x).2)
  · simpa [hx] using (horphan x).1

theorem graph_add_parent_eq (g : Graph) (self obj c : Nat) (hwf : g.WF) :
    (g.add self obj).parent c =
      if c = obj then Option.some self else g.parent c := by
  rw [graph_add_parent]
  rcases hp : g.parent obj with _ | p
  · rfl
  · have hin : obj ∈ g.children p := (hwf.1 obj p).mpr hp
    by_cases hc : c = obj <;>
      simp [Graph.remove, if_pos hin, Function.update_apply, hc]

/-- add preserves well-formedness. -/
theorem Graph.WF.add {g : Graph} (hwf : g.WF) (self obj : Nat) :
    (g.add self obj).WF := by
  constructor
  · intro c p
    rw [graph_mem_add_children g self obj hwf,
      graph_add_parent_eq g self obj c hwf]
    by_cases hc : c = obj
    · subst hc
      simp [eq_comm]
    · simp [hc, hwf.1 c p]
  · intro p
    exact graph_add_children_nodup g self obj hwf p

/-! ## Claim theorems for the graph operations -/

/-- Claim C3: for every pair of distinct nodes B, C and every node A, after
add(B, A) followed by add(C, A), the parent of A is C and A is absent from
the children of B; in general, add always detaches the child from any
existing parent before attaching, so (on a well-formed graph) no node is
ever in the children list of two parents at once, and well-formedness is
preserved. -/
theorem c3_single_parent (g : Graph) (A B C : Nat) (hwf : g.WF) (hBC : B ≠ C) :
    ((g.add B A).add C A).parent A = Option.some C ∧
      A ∉ ((g.add B A).add C A).children B ∧
      (∀ self obj : Nat, (g.add self obj).WF) ∧
      (∀ self obj x p q : Nat, x ∈ (g.add self obj).children p →
        x ∈ (g.add self obj).children q → p = q) := by
  have hwf1 : (g.add B A).WF := hwf.add B A
  have hwf2 : ((g.add B A).add C A).WF := hwf1.add C A
  have hparent : ((g.add B A).add C A).parent A = Option.some C := by
    rw [graph_add_parent_eq _ C A A hwf1]
    simp
  refine ⟨hparent, ?_, fun self obj => hwf.add self obj, ?_⟩
  · intro hmem
    rw [hwf2.1 A B] at hmem
    rw [hparent] at hmem
    exact hBC (Option.some.inj hmem).symm
  · intro self obj x p q hp hq
    have h1 := ((hwf.add self obj).1 x p).mp hp
    have h2 := ((hwf.add self obj).1 x q).mp hq
    rw [h1] at h2
    exact Option.some.inj h2

/-- Witness for C3 at a concrete input: the empty scene graph, A = 0 added
to B = 1 then to C = 2. -/
theorem c3_single_parent_check :
    ((Graph.add (Graph.add ⟨fun _ => Option.none, fun _ => [], fun _ => true⟩ 1 0) 2 0)).parent 0
        = Option.some 2 ∧
      0 ∉ ((Graph.add (Graph.add ⟨fun _ => Option.none, fun _ => [], fun _ => true⟩ 1 0) 2 0)).children 1 := by
  have h := c3_single_parent ⟨fun _ => Option.none, fun _ => [], fun _ => true⟩
    0 1 2 ⟨fun c p => by simp, fun p => List.nodup_nil⟩ (by decide)
  exact ⟨h.1, h.2.1⟩

/-- Claim C7: removing a node that is not actually a child raises nothing
and leaves the whole state unchanged. -/
theorem c7_remove_non_child (g : Graph) (self obj : Nat)
    (h : obj ∉ g.children self) : g.remove self obj = g := by
  rw [Graph.remove, if_neg h]

/-- Witness for C7 at a concrete input: removing 0 from 1 in the empty
scene graph. -/
theorem c7_remove_non_child_check :
    Graph.remove ⟨fun _ => Option.none, fun _ => [], fun _ => true⟩ 1 0 =
      ⟨fun _ => Option.none, fun _ => [], fun _ => true⟩ :=
  c7_remove_non_child _ 1 0 (by simp)

/-! ## Claim theorems for the material property model -/

/-- Claim C5 (amended): every member of the ColorMode domain round-trips
through the color_mode setter; every non-falsy value outside the domain
raises invalid-enum-value carrying the offending value and the allowed
set, and the stored value is retained.  (The amendment: falsy values
outside the domain do not raise, they are normalized to the default, see
the counterexample.) -/
theorem c5_color_mode_roundtrip_amended (store : PyVal) (s : String) (v : PyVal)
    (hs : s ∈ ColorMode) (hv : isFalsy v = false)
    (hv2 : isEnumMember v ColorMode = false) :
    color_mode_set store (PyVal.str s) = (PyVal.str s, Option.none) ∧
      color_mode_set store v = (store, Option.some ⟨v, ColorMode⟩) := by
  constructor
  · have hdom : s = "auto" ∨ s = "uniform" ∨ s = "vertex" ∨ s = "face" := by
      simpa [ColorMode] using hs
    have hs' : s ≠ "" := by
      rcases hdom with rfl | rfl | rfl | rfl <;> decide
    simp [color_mode_set, pyOr, isFalsy, hs', isEnumMember, hs]
  · simp [color_mode_set, pyOr, hv, hv2]

/-- Witness for C5 at concrete inputs: the member vertex round-trips, the
non-member non-falsy string bogus raises and retains the store. -/
theorem c5_color_mode_check :
    color_mode_set (PyVal.str "auto") (PyVal.str "vertex") =
        (PyVal.str "vertex", Option.none) ∧
      color_mode_set (PyVal.str "auto") (PyVal.str "bogus") =
        (PyVal.str "auto", Option.some ⟨PyVal.str "bogus", ColorMode⟩) :=
  c5_color_mode_roundtrip_amended (PyVal.str "auto") "vertex" (PyVal.str "bogus")
    (by decide) (by decide) (by decide)

/-- Counterexample for C5 as stated: None is outside the ColorMode domain,
yet the setter raises nothing; it stores the default auto (so the previous
value is not retained either). -/
theorem c5_falsy_value_no_error :
    isEnumMember PyVal.none ColorMode = false ∧
      color_mode_set (PyVal.str "vertex") PyVal.none =
        (PyVal.str "auto", Option.none) := by
  constructor <;> rfl

/-- Claim C10: the enum-valued setters color_mode, size_space and size_mode
normalize every falsy input (None, the empty string, 0) to the documented
default (auto, screen, uniform respectively) before the membership check,
so a falsy assignment never raises and stores the default. -/
theorem c10_falsy_normalized_defaults (store v : PyVal) (h : isFalsy v = true) :
    color_mode_set store v = (PyVal.str "auto", Option.none) ∧
      size_space_set store v = (PyVal.str "screen", Option.none) ∧
      size_mode_set store v = (PyVal.str "uniform", Option.none) := by
  cases v with
  | none => exact ⟨rfl, rfl, rfl⟩
  | str s =>
      have hs : s = "" := by simpa [isFalsy] using h
      subst hs
      exact ⟨rfl, rfl, rfl⟩
  | int n =>
      have hn : n = 0 := by simpa [isFalsy] using h
      subst hn
      exact ⟨rfl, rfl, rfl⟩

/-- Witness for C10 at a concrete input: assigning None. -/
theorem c10_falsy_check :
    color_mode_set (PyVal.str "vertex") PyVal.none =
        (PyVal.str "auto", Option.none) ∧
      size_space_set (PyVal.str "world") PyVal.none =
        (PyVal.str "screen", Option.none) ∧
      size_mode_set (PyVal.str "vertex") PyVal.none =
        (PyVal.str "uniform", Option.none) := by
  have h1 := c10_falsy_normalized_defaults (PyVal.str "vertex") PyVal.none rfl
  have h2 := c10_falsy_normalized_defaults (PyVal.str "world") PyVal.none rfl
  exact ⟨h1.1, h2.2.1, h1.2.2⟩

/-- Claim C6: after the color setter runs, color_is_transparent holds
exactly when the alpha channel is strictly below 1, and the
uniform-buffer color, the pending-flush range and the flag are all fields
of the one state produced by the single setter call, so no interleaved
read can see the new color with a stale flag. -/
theorem c6_color_transparency (st : PointsMaterialState) (value : Color) :
    ((color_set st value).color_is_transparent = true ↔ value.a < 1) ∧
      (color_set st value).color = value ∧
      (color_set st value).pending = st.pending ++ [(0, 1)] := by
  simp [color_set]

/-- Claim C8: the map setter (and the sprite setter of the sprite variant)
succeeds exactly on a Texture handle or the None sentinel; on any other
value it fails with the type-mismatch condition and the stored value is
unchanged. -/
theorem c8_texture_setters (store good bad : TexValue)
    (hgood : isNoneOrTexture good = true) (hbad : isNoneOrTexture bad = false) :
    map_set store good = (good, Option.none) ∧
      sprite_set store good = (good, Option.none) ∧
      map_set store bad = (store, Option.some TypeMismatch.assertionFailed) ∧
      sprite_set store bad = (store, Option.some TypeMismatch.assertionFailed) := by
  refine ⟨?_, ?_, ?_, ?_⟩ <;> simp [map_set, sprite_set, hgood, hbad]

/-- Witness for C8 at concrete inputs: a Texture handle is accepted, an
integer is rejected. -/
theorem c8_texture_setters_check :
    map_set TexValue.none (TexValue.texture 3) = (TexValue.texture 3, Option.none) ∧
      sprite_set TexValue.none (TexValue.texture 3) = (TexValue.texture 3, Option.none) ∧
      map_set TexValue.none (TexValue.other (PyVal.int 5)) =
        (TexValue.none, Option.some TypeMismatch.assertionFailed) ∧
      sprite_set TexValue.none (TexValue.other (PyVal.int 5)) =
        (TexValue.none, Option.some TypeMismatch.assertionFailed) :=
  c8_texture_setters TexValue.none (TexValue.texture 3)
    (TexValue.other (PyVal.int 5)) rfl rfl

/-! ## Claim theorems for the pick decoding -/

/-- Claim C2 (amended): for the pick value encoded from object_id 7, index
123456, x 300, y 200 with the fixed bit layout, _wgpu_get_pick_info
returns exactly the two-entry dict with vertex_index 123456 and
point_coord (44, -56); the wobject_id field is decoded from its 20 bits
but not included in the returned dict. -/
theorem c2_pick_decode_amended :
    _wgpu_get_pick_info
        (pack_bitfield [(7, 20), (123456, 26), (300, 9), (200, 9)]) =
      [("vertex_index", PickField.nat 123456),
       ("point_coord", PickField.coord (44, -56))] := by
  decide

/-- Counterexample for C2 as stated: the returned dict has no wobject_id
entry at all, so it is not the three-entry dict the claim demands. -/
theorem c2_pick_info_omits_wobject_id :
    (_wgpu_get_pick_info
        (pack_bitfield [(7, 20), (123456, 26), (300, 9), (200, 9)])).lookup
        "wobject_id" = Option.none := by
  decide

/-! ## Helper lemmas for the transform hierarchy -/

theorem list_attach_map {α β : Type _} (l : List α) (f : α → β) :
    (l.attach.map fun c => f c.1) = l.map f := by
  simp

/-- Unfolding of update_matrix_world_at at a node.  Since update_matrix
(line 63) has just set matrix_world_dirty, the condition of line 73 holds
whatever force is, and only the recompute branch is reachable. -/
theorem update_matrix_world_at_mk (compose : V → Q → V → M) [Monoid M]
    (parent_world : Option M) (force update_children : Bool)
    (p : V) (r : Q) (s : V) (m w : M) (d : Bool) (cs : List (WTree V Q M)) :
    update_matrix_world_at compose parent_world force update_children
        (WTree.mk p r s m w d cs) =
      WTree.mk p r s (compose p r s)
        (applyParent parent_world (compose p r s)) false
        (if update_children then
          (cs.map WTree.markDirty).map
            (update_matrix_world_at compose
              (Option.some (applyParent parent_world (compose p r s))) false true)
        else cs.map WTree.markDirty) := by
  rw [update_matrix_world_at]
  simp only [Bool.true_or, list_attach_map]
  exact if_pos (by trivial)

/-- The premark of line 82 is invisible to the update of line 85: the
child update overwrites matrix, matrix_world and the dirty flag anyway. -/
theorem update_matrix_world_at_markDirty (compose : V → Q → V → M) [Monoid M]
    (pw : Option M) (force uc : Bool) (t : WTree V Q M) :
    update_matrix_world_at compose pw force uc (WTree.markDirty t) =
      update_matrix_world_at compose pw force uc t := by
  cases t with
  | mk p r s m w d cs =>
      rw [WTree.markDirty, update_matrix_world_at_mk, update_matrix_world_at_mk]

theorem applyParent_pwProd [Monoid M] (pw : Option M) (m : M) :
    applyParent pw m = pwProd pw * m := by
  cases pw <;> simp [applyParent, pwProd]

/-- Structural induction over the scene tree, with the induction
hypothesis available at every member of the children list. -/
theorem wtree_induction {motive : WTree V Q M → Prop}
    (step : ∀ (p : V) (r : Q) (s : V) (m w : M) (d : Bool)
      (cs : List (WTree V Q M)), (∀ c ∈ cs, motive c) →
      motive (WTree.mk p r s m w d cs)) : ∀ t, motive t := by
  have key : ∀ (n : Nat) (t : WTree V Q M), sizeOf t ≤ n → motive t := by
    intro n
    induction n with
    | zero =>
        intro t ht
        cases t with
        | mk p r s m w d cs =>
            simp only [WTree.mk.sizeOf_spec] at ht
            omega
    | succ n ih =>
        intro t ht
        cases t with
        | mk p r s m w d cs =>
            refine step p r s m w d cs fun c hc => ih c ?_
            have hlt := List.sizeOf_lt_of_mem hc
            simp only [WTree.mk.sizeOf_spec] at ht
            omega
  exact fun t => key (sizeOf t) t le_rfl

/-- A full update with update_children set establishes the
ancestor-product property at every node of the subtree, whenever the
incoming parent world matrix is the product of the ancestor local
matrices. -/
theorem update_matrix_world_at_worlds (compose : V → Q → V → M) [Monoid M] :
    ∀ (t : WTree V Q M) (ancestors : List M) (pw : Option M) (force : Bool),
      pwProd pw = ancestors.prod →
      WorldsMatch compose ancestors
        (update_matrix_world_at compose pw force true t) := by
  refine wtree_induction (motive := fun t => ∀ ancestors pw force,
    pwProd pw = ancestors.prod →
    WorldsMatch compose ancestors (update_matrix_world_at compose pw force true t)) ?_
  intro p r s m w d cs ih ancestors pw force hpw
  rw [update_matrix_world_at_mk, if_pos rfl]
  refine WorldsMatch.mk ancestors p r s _ _ _ _ ?_ ?_
  · rw [applyParent_pwProd, hpw]
  · intro c hc
    rw [List.mem_map] at hc
    obtain ⟨c1, hc1, rfl⟩ := hc
    rw [List.mem_map] at hc1
    obtain ⟨b, hb, rfl⟩ := hc1
    rw [update_matrix_world_at_markDirty]
    refine ih b hb (ancestors ++ [compose p r s]) _ false ?_
    have hsome : pwProd (Option.some (applyParent pw (compose p r s))) =
        applyParent pw (compose p r s) := rfl
    rw [hsome, applyParent_pwProd, hpw, List.prod_append]
    simp

/-! ## Claim theorems for the transform hierarchy -/

/-- Claim C1: for every hierarchy with arbitrary local transforms, after
calling update_matrix_world on the root with force=True and
update_children=True (and update_parents at its default False), every
node world matrix equals the product of the local matrices of its
ancestors (root-to-node order) composed with its own local matrix; a root
world matrix equals its own local matrix (the empty ancestor product is
the identity). -/
theorem c1_world_matrix_correctness (compose : V → Q → V → M) [Monoid M]
    (t : WTree V Q M) :
    WorldsMatch compose [] (update_matrix_world compose t [] true true false) := by
  have h := update_matrix_world_at_worlds compose t [] Option.none true
    (by simp [pwProd])
  rw [update_matrix_world]
  simpa [WTree.modifyAt] using h

/-- Claim C4: whenever update_matrix_world recomputes a node (and the
dirty-or-force branch is in fact always taken, because update_matrix has
just set the flag), it clears that node dirty flag and marks every direct
child dirty; so a call with update_children=False leaves each direct
child dirty, and any later update call reaching a child recomputes its
world matrix from the current local data rather than keeping a stale
one. -/
theorem c4_dirty_propagation (compose : V → Q → V → M) [Monoid M]
    (t : WTree V Q M) (parent_world : Option M) (force : Bool) :
    (update_matrix_world_at compose parent_world force false t).matrix_world_dirty
        = false ∧
      (∀ c ∈ (update_matrix_world_at compose parent_world force false t).children,
        c.matrix_world_dirty = true) ∧
      (∀ (c : WTree V Q M) (pw2 : Option M) (force2 uc2 : Bool),
        (update_matrix_world_at compose pw2 force2 uc2 c).matrix_world =
          applyParent pw2 (compose c.position c.rotation c.scale)) := by
  refine ⟨?_, ?_, ?_⟩
  · cases t with
    | mk p r s m w d cs => rw [update_matrix_world_at_mk]; rfl
  · cases t with
    | mk p r s m w d cs =>
        rw [update_matrix_world_at_mk, if_neg (by simp)]
        intro c hc
        rw [WTree.children] at hc
        rw [List.mem_map] at hc
        obtain ⟨b, hb, rfl⟩ := hc
        cases b with
        | mk bp br bs bm bw bd bcs => rfl
  · intro c pw2 force2 uc2
    cases c with
    | mk p r s m w d cs => rw [update_matrix_world_at_mk]; rfl

/-- The force argument never changes the node-local update: after
update_matrix line 63 the node is dirty, so line 73 takes the recompute
branch either way. -/
theorem update_matrix_world_at_force (compose : V → Q → V → M) [Monoid M]
    (pw : Option M) (uc : Bool) (t : WTree V Q M) :
    update_matrix_world_at compose pw true uc t =
      update_matrix_world_at compose pw false uc t := by
  cases t with
  | mk p r s m w d cs =>
      rw [update_matrix_world_at_mk, update_matrix_world_at_mk]

/-- Claim C9: because update_matrix_world invokes update_matrix first,
which unconditionally sets the dirty flag, the dirty-or-force condition
always holds; hence at every node (path) and for every combination of
update_children and update_parents, a call with force=False produces
exactly the same final state as one with force=True. -/
theorem c9_force_flag_equiv (compose : V → Q → V → M) [Monoid M]
    (t : WTree V Q M) (path : List Nat) (update_children update_parents : Bool) :
    update_matrix_world compose t path false update_children update_parents =
      update_matrix_world compose t path true update_children update_parents := by
  have hfun : ∀ (pw : Option M) (uc : Bool),
      update_matrix_world_at compose pw true uc =
        update_matrix_world_at compose pw false uc :=
    fun pw uc => funext fun u => update_matrix_world_at_force compose pw uc u
  suffices key : ∀ (n : Nat) (path : List Nat), path.length ≤ n →
      ∀ (t : WTree V Q M) (uc up : Bool),
      update_matrix_world compose t path false uc up =
        update_matrix_world compose t path true uc up by
    exact key path.length path le_rfl t update_children update_parents
  intro n
  induction n with
  | zero =>
      intro path hlen t uc up
      have hpath : path = [] := List.eq_nil_of_length_eq_zero (Nat.le_zero.mp hlen)
      subst hpath
      rw [update_matrix_world]
      conv_rhs => rw [update_matrix_world]
      simp [WTree.modifyAt, update_matrix_world_at_force]
  | succ n ih =>
      intro path hlen t uc up
      rw [update_matrix_world]
      conv_rhs => rw [update_matrix_world]
      by_cases hc : up = true ∧ path ≠ []
      · have hlen2 : path.dropLast.length ≤ n := by
          simp only [List.length_dropLast]
          omega
        simp only [dif_pos hc]
        rw [ih path.dropLast hlen2 t false true]
        simp only [hfun]
      · simp only [dif_neg hc]
        simp only [hfun]
